import Mathlib

/-!
Shallow embedding of the FlameUp backup utility (src/main.cpp) and proofs
about its retention policy, snapshot naming, catalog, operations and
daemon scheduling loop.
-/

set_option maxHeartbeats 1000000

namespace FlameUp

/-! ## Snapshot naming (src/main.cpp, `make_timestamp_folder_name`, lines 33-47)

The C++ function formats the current local time with
`"Backup_" << std::put_time(&tm_buf, "%Y-%m-%d_%H-%M-%S")`.
`%m %d %H %M %S` are zero-padded two-digit decimal fields; `%Y` is the
year printed as a plain decimal number (no padding mandated by the C
standard).  We model the broken-down local time (`std::tm` after the
`+1900` / `+1` adjustments that `put_time` applies) as a record of the
printed calendar field values. -/

structure Tm where
  year : Nat
  month : Nat
  day : Nat
  hour : Nat
  minute : Nat
  second : Nat
deriving DecidableEq, Repr

/-- Fixed-width zero-padded decimal rendering, least-significant digit
last: `padDigits k n` is the last `k` decimal digits of `n`, which for
`n < 10^k` is exactly the `k`-wide zero-padded decimal form used by the
`%m %d %H %M %S` conversion specifiers. -/
def padDigits : Nat → Nat → List Char
  | 0, _ => []
  | k + 1, n => padDigits k (n / 10) ++ [Nat.digitChar (n % 10)]

/-- Plain decimal rendering with no padding, as the `%Y` conversion
specifier prints the year. -/
def decDigits (n : Nat) : List Char :=
  if h : n < 10 then [Nat.digitChar n]
  else decDigits (n / 10) ++ [Nat.digitChar (n % 10)]
  decreasing_by exact Nat.div_lt_self (by omega) (by omega)

/-- The character list of `"Backup_" + put_time(tm, "%Y-%m-%d_%H-%M-%S")`. -/
def tmChars (tm : Tm) : List Char :=
  "Backup_".data ++ (decDigits tm.year ++ ('-' ::
    (padDigits 2 tm.month ++ ('-' :: (padDigits 2 tm.day ++ ('_' ::
      (padDigits 2 tm.hour ++ ('-' :: (padDigits 2 tm.minute ++ ('-' ::
        padDigits 2 tm.second))))))))))

/-- `make_timestamp_folder_name` (main.cpp lines 33-47).  The input models
the outcome of `localtime_s`: `none` when the conversion fails (nonzero
return), `some tm` with the broken-down time otherwise.  On failure the
source returns the sentinel string `"Backup_Error"`; on success it returns
the formatted timestamp name. -/
def make_timestamp_folder_name (localtimeResult : Option Tm) : String :=
  match localtimeResult with
  | none => "Backup_Error"
  | some tm => ⟨tmChars tm⟩

/-- Validity of a broken-down local time as produced by `localtime_s`:
calendar field ranges, with the year in the range `localtime_s` supports
on the target platform (the source relies on `localtime_s`, whose
documented range ends at year 3000), in particular four decimal digits. -/
def ValidTm (t : Tm) : Prop :=
  1970 ≤ t.year ∧ t.year ≤ 3000 ∧
  1 ≤ t.month ∧ t.month ≤ 12 ∧
  1 ≤ t.day ∧ t.day ≤ 31 ∧
  t.hour ≤ 23 ∧ t.minute ≤ 59 ∧ t.second ≤ 59

/-- Chronological order on broken-down times: lexicographic on
(year, month, day, hour, minute, second).  For valid calendar values this
is exactly "earlier instant, distinct at second resolution". -/
def TmLt (a b : Tm) : Prop :=
  a.year < b.year ∨ (a.year = b.year ∧
    (a.month < b.month ∨ (a.month = b.month ∧
      (a.day < b.day ∨ (a.day = b.day ∧
        (a.hour < b.hour ∨ (a.hour = b.hour ∧
          (a.minute < b.minute ∨ (a.minute = b.minute ∧
            a.second < b.second)))))))))

/-! ### Lexicographic helper lemmas for the naming order -/

theorem lex_append_of_length_eq {r : Char → Char → Prop} {as bs : List Char}
    (h : List.Lex r as bs) (hlen : as.length = bs.length) (cs ds : List Char) :
    List.Lex r (as ++ cs) (bs ++ ds) := by
  induction h with
  | nil => simp at hlen
  | cons _ ih => exact List.Lex.cons (ih (by simpa using hlen))
  | rel h => exact List.Lex.rel h

theorem digitChar_lt {a b : Nat} (ha : a < 10) (hb : b < 10) (h : a < b) :
    Nat.digitChar a < Nat.digitChar b := by
  have key : ∀ x y : Fin 10, x < y → Nat.digitChar x.val < Nat.digitChar y.val := by decide
  exact key ⟨a, ha⟩ ⟨b, hb⟩ h

theorem padDigits_length (k n : Nat) : (padDigits k n).length = k := by
  induction k generalizing n with
  | zero => rfl
  | succ k ih => simp [padDigits, ih]

theorem padDigits_lex {k n1 n2 : Nat} (h : n1 < n2) (hk : n2 < 10 ^ k) :
    List.Lex (· < ·) (padDigits k n1) (padDigits k n2) := by
  induction k generalizing n1 n2 with
  | zero => exact absurd h (by omega)
  | succ k ih =>
    by_cases hq : n1 / 10 < n2 / 10
    · have hb : n2 / 10 < 10 ^ k := by
        rw [pow_succ'] at hk
        exact Nat.div_lt_of_lt_mul hk
      exact lex_append_of_length_eq (ih hq hb) (by simp [padDigits_length]) _ _
    · have hq' : n1 / 10 = n2 / 10 := by omega
      have hm : n1 % 10 < n2 % 10 := by omega
      show List.Lex _ (padDigits k (n1 / 10) ++ _) (padDigits k (n2 / 10) ++ _)
      rw [hq']
      exact List.Lex.append_left _
        (List.Lex.rel (digitChar_lt (by omega) (by omega) hm)) _

theorem decDigits_eq_padDigits {k n : Nat} (h1 : 10 ^ k ≤ n) (h2 : n < 10 ^ (k + 1)) :
    decDigits n = padDigits (k + 1) n := by
  induction k generalizing n with
  | zero =>
    have hn : n < 10 := by simpa using h2
    rw [decDigits, dif_pos hn]
    have : n % 10 = n := Nat.mod_eq_of_lt hn
    simp [padDigits, this]
  | succ k ih =>
    have h10 : ¬ n < 10 := by
      have : 10 ^ 1 ≤ 10 ^ (k + 1) := Nat.pow_le_pow_right (by omega) (by omega)
      simp only [pow_one] at this; omega
    rw [decDigits, dif_neg h10]
    have hlo : 10 ^ k ≤ n / 10 := by
      rw [Nat.le_div_iff_mul_le (by omega), ← pow_succ]
      exact h1
    have hhi : n / 10 < 10 ^ (k + 1) := by
      rw [pow_succ'] at h2
      exact Nat.div_lt_of_lt_mul h2
    rw [ih hlo hhi]
    rfl

/-- C3: for any two valid timestamps `t1 < t2` (distinct at second
resolution), the snapshot name generated for `t1` compares strictly less
than the one for `t2` under plain string comparison, and the name is a
deterministic function of the timestamp (no randomness: equal inputs give
equal names). -/
theorem snapshot_name_ordering (t1 t2 : Tm) (h1 : ValidTm t1) (h2 : ValidTm t2)
    (hlt : TmLt t1 t2) :
    make_timestamp_folder_name (some t1) < make_timestamp_folder_name (some t2) ∧
    (∀ u v : Option Tm, u = v →
      make_timestamp_folder_name u = make_timestamp_folder_name v) := by
  refine ⟨?_, fun u v huv => by rw [huv]⟩
  rw [String.lt_iff_toList_lt]
  show List.Lex (· < ·) (tmChars t1) (tmChars t2)
  obtain ⟨hy1, hy1', hmo1, hmo1', hd1, hd1', hh1, hmi1, hs1⟩ := h1
  obtain ⟨hy2, hy2', hmo2, hmo2', hd2, hd2', hh2, hmi2, hs2⟩ := h2
  have p2 : (10:Nat) ^ 2 = 100 := by norm_num
  have p3 : (10:Nat) ^ 3 = 1000 := by norm_num
  have p4 : (10:Nat) ^ 4 = 10000 := by norm_num
  unfold tmChars
  apply List.Lex.append_left
  rw [decDigits_eq_padDigits (k := 3) (by omega) (by omega),
      decDigits_eq_padDigits (k := 3) (by omega) (by omega)]
  rcases hlt with hy | ⟨hy, hmo | ⟨hmo, hd | ⟨hd, hh | ⟨hh, hmi | ⟨hmi, hs⟩⟩⟩⟩⟩
  · exact lex_append_of_length_eq (padDigits_lex hy (by omega))
      (by simp [padDigits_length]) _ _
  · rw [hy]
    apply List.Lex.append_left
    apply List.Lex.cons
    exact lex_append_of_length_eq (padDigits_lex hmo (by omega))
      (by simp [padDigits_length]) _ _
  · rw [hy, hmo]
    apply List.Lex.append_left
    apply List.Lex.cons
    apply List.Lex.append_left
    apply List.Lex.cons
    exact lex_append_of_length_eq (padDigits_lex hd (by omega))
      (by simp [padDigits_length]) _ _
  · rw [hy, hmo, hd]
    apply List.Lex.append_left
    apply List.Lex.cons
    apply List.Lex.append_left
    apply List.Lex.cons
    apply List.Lex.append_left
    apply List.Lex.cons
    exact lex_append_of_length_eq (padDigits_lex hh (by omega))
      (by simp [padDigits_length]) _ _
  · rw [hy, hmo, hd, hh]
    apply List.Lex.append_left
    apply List.Lex.cons
    apply List.Lex.append_left
    apply List.Lex.cons
    apply List.Lex.append_left
    apply List.Lex.cons
    apply List.Lex.append_left
    apply List.Lex.cons
    exact lex_append_of_length_eq (padDigits_lex hmi (by omega))
      (by simp [padDigits_length]) _ _
  · rw [hy, hmo, hd, hh, hmi]
    apply List.Lex.append_left
    apply List.Lex.cons
    apply List.Lex.append_left
    apply List.Lex.cons
    apply List.Lex.append_left
    apply List.Lex.cons
    apply List.Lex.append_left
    apply List.Lex.cons
    apply List.Lex.append_left
    apply List.Lex.cons
    exact padDigits_lex hs (by omega)

/-- Witness for C3 at two concrete timestamps one second apart. -/
theorem snapshot_name_ordering_witness :
    ValidTm ⟨2024, 1, 1, 0, 0, 0⟩ ∧ TmLt ⟨2024, 1, 1, 0, 0, 0⟩ ⟨2024, 1, 1, 0, 0, 1⟩ ∧
    make_timestamp_folder_name (some ⟨2024, 1, 1, 0, 0, 0⟩) <
      make_timestamp_folder_name (some ⟨2024, 1, 1, 0, 0, 1⟩) :=
  ⟨by simp only [ValidTm]; decide, by simp only [TmLt]; decide,
    (snapshot_name_ordering ⟨2024, 1, 1, 0, 0, 0⟩ ⟨2024, 1, 1, 0, 0, 1⟩
      (by simp only [ValidTm]; decide) (by simp only [ValidTm]; decide)
      (by simp only [TmLt]; decide)).1⟩

/-! ## Snapshot catalog (src/main.cpp, `list_backups` lines 79-110, and the
entry filter shared with `cleanup_old_backups` lines 171-176)

A directory is modelled by its set of entries, each a name plus an
is-directory flag; a real directory holds distinct names and its listing
order (`fs::directory_iterator`) is unspecified, so the set is
represented as a list up to that order. -/

structure DirEntry where
  name : String
  isDir : Bool
deriving DecidableEq, Repr

/-- The filter both `list_backups` (lines 87-92) and `cleanup_old_backups`
(lines 171-176) apply to each directory entry:
`entry.is_directory() && entry.path().filename().string().starts_with("Backup_")`.
C++ `starts_with` is the character-prefix test, embedded via
`List.isPrefixOf` on the character data. -/
def isBackupEntry (e : DirEntry) : Bool :=
  e.isDir && "Backup_".data.isPrefixOf e.name.data

/-- The collected `backups` vector before sorting. -/
def backupEntries (entries : List DirEntry) : List DirEntry :=
  entries.filter isBackupEntry

/-- Name order used by both sorts: C++ `std::string` comparison is
lexicographic on the characters. -/
def nameLe (a b : DirEntry) : Prop := a.name.data ≤ b.name.data

instance : DecidableRel nameLe :=
  fun a b => inferInstanceAs (Decidable (a.name.data ≤ b.name.data))

instance : IsTotal DirEntry nameLe := ⟨fun a b => le_total a.name.data b.name.data⟩

instance : IsTrans DirEntry nameLe := ⟨fun _ _ _ hab hbc => le_trans hab hbc⟩

/-- `nameLe` flipped: the descending comparator `a > b` of `list_backups`
(lines 100-102) sorts by the flipped order. -/
def nameGe (a b : DirEntry) : Prop := b.name.data ≤ a.name.data

instance : DecidableRel nameGe :=
  fun a b => inferInstanceAs (Decidable (b.name.data ≤ a.name.data))

/-- `std::sort(backups.begin(), backups.end(), a.name < b.name)` (lines
179-181): ascending, oldest name first. `std::sort` with the strict
name order produces exactly the ascending arrangement, embedded as an
insertion sort by the (total, transitive) reflexive closure. -/
def sortEntriesByName : List DirEntry → List DirEntry :=
  List.insertionSort nameLe

/-- `std::sort` with comparator `a.name > b.name` (lines 100-102):
descending, newest name first. -/
def sortEntriesByNameDesc : List DirEntry → List DirEntry :=
  List.insertionSort nameGe

/-- The messages `list_backups` prints on its three paths. -/
inductive ListMessage where
  | noBackupDirectory
  | noBackupsFound
  | available
deriving DecidableEq, Repr

structure ListResult where
  message : ListMessage
  listed : List String
deriving DecidableEq, Repr

/-- `list_backups` (lines 79-110).  The argument is `none` when the
backup root does not exist (`!fs::exists(backupRoot)`), otherwise the
root's entry list.  Prints "No backup directory found at" for a missing
root, "No backups found in" for an existing root with no matching
entries, and otherwise the matching entries sorted newest first. -/
def list_backups (root : Option (List DirEntry)) : ListResult :=
  match root with
  | none => ⟨.noBackupDirectory, []⟩
  | some entries =>
    let backups := backupEntries entries
    if backups.isEmpty then ⟨.noBackupsFound, []⟩
    else ⟨.available, (sortEntriesByNameDesc backups).map (fun e => e.name)⟩

/-- The `--list` branch of `main` (lines 425-428): run `list_backups`,
then `return 0` unconditionally. -/
def main_list (root : Option (List DirEntry)) : Nat × ListResult :=
  (0, list_backups root)

/-! ## Retention policy (src/main.cpp, `cleanup_old_backups`, lines 167-191) -/

/-- The `while (backups.size() >= maxBackups)` loop (lines 184-190) over
the name-sorted backup vector: each iteration deletes the subtree of the
current oldest entry (`backups.front()`), records it, and erases it from
the vector.  `front()` on an empty vector is undefined behavior, signalled
by `none`; it is reached exactly when `maxBackups = 0`, since then the
condition `0 >= 0` still holds once the vector is empty.  Returns the
kept entries and the evicted names in eviction order. -/
def cleanupLoop (maxBackups : Nat) : List DirEntry → Option (List DirEntry × List String)
  | [] => if maxBackups = 0 then none else some ([], [])
  | e :: rest =>
    if (e :: rest).length ≥ maxBackups then
      match cleanupLoop maxBackups rest with
      | none => none
      | some (remaining, evicted) => some (remaining, e.name :: evicted)
    else some (e :: rest, [])

/-- `cleanup_old_backups` (lines 167-191): collect the `Backup_`-prefixed
directory entries, sort ascending by name, and delete from the front
while the count still reaches `maxBackups`.  The resulting entry set of
the backup root is the untouched non-matching entries together with the
backups the loop kept.  Returns the new entry set and the evicted names,
or `none` on the `maxBackups = 0` undefined behavior. -/
def cleanup_old_backups (maxBackups : Nat) (entries : List DirEntry) :
    Option (List DirEntry × List String) :=
  match cleanupLoop maxBackups (sortEntriesByName (backupEntries entries)) with
  | none => none
  | some (remaining, evicted) =>
      some (entries.filter (fun e => !isBackupEntry e) ++ remaining, evicted)

/-- The success path of `perform_backup` (lines 194-235): the source
directory exists, `cleanup_old_backups` runs on the backup root, a name
is generated from the clock, and `fs::copy(source, backupRoot/newName,
recursive)` creates the new snapshot directory.  If an entry of that name
already exists as a directory, the copy merges into it and the entry set
is unchanged; copying onto an existing non-directory throws (caught:
failure).  `none` means the operation did not complete successfully. -/
def perform_backup (maxBackups : Nat) (clock : Option Tm)
    (entries : List DirEntry) : Option (List DirEntry) :=
  match cleanup_old_backups maxBackups entries with
  | none => none
  | some (entries', _) =>
    let newBackupName := make_timestamp_folder_name clock
    match entries'.find? (fun e => decide (e.name = newBackupName)) with
    | some e => if e.isDir then some entries' else none
    | none => some (entries' ++ [⟨newBackupName, true⟩])

/-- A sequence of successful create operations through the
retention-policy-then-create path, one clock reading per create. -/
def applyCreates (maxBackups : Nat) :
    List (Option Tm) → List DirEntry → Option (List DirEntry)
  | [], entries => some entries
  | clock :: clocks, entries =>
    match perform_backup maxBackups clock entries with
    | none => none
    | some entries' => applyCreates maxBackups clocks entries'

/-! ## Configuration parsing (src/main.cpp, `parse_arguments`, lines 264-340) -/

structure BackupConfig where
  sourcePath : String := ""
  backupRoot : String := "CopiedFiles"
  configFile : String := "paths.txt"
  maxBackups : Nat := 10
  intervalMinutes : Nat := 30
  daemon : Bool := false
  instant : Bool := false
  verbose : Bool := false
  help : Bool := false
  listBackups : Bool := false
  restoreBackup : Option String := none
  deleteBackup : Option String := none
deriving DecidableEq, Repr

/-- `std::stoul` on the well-formed decimal strings the claims exercise:
parses the digits; anything else throws (`Except.error` at the caller).
(Leading sign/whitespace and trailing garbage handling of `stoul` is not
modelled; no claim depends on it.) -/
def stoul (s : String) : Option Nat :=
  if s.data ≠ [] ∧ s.data.all (fun c => c.isDigit) then
    some (s.data.foldl (fun n c => 10 * n + (c.toNat - '0'.toNat)) 0)
  else none

/-- `parse_arguments` (lines 264-340) over `argv[1..]`.  Value flags
consume the following argument; a missing value, a bad number or an
unknown argument throws `std::runtime_error`, modelled as `Except.error`
(caught in `main`, exit 1).  Note the `-m` and `--max` branch stores any parsed
number, including `0`, with no validation. -/
def parse_arguments : List String → BackupConfig → Except String BackupConfig
  | [], config => .ok config
  | arg :: rest, config =>
    if arg = "-h" ∨ arg = "--help" then
      parse_arguments rest { config with help := true }
    else if arg = "-p" ∨ arg = "--path" then
      match rest with
      | v :: rest' => parse_arguments rest' { config with sourcePath := v }
      | [] => .error "--path requires a value"
    else if arg = "-c" ∨ arg = "--config" then
      match rest with
      | v :: rest' => parse_arguments rest' { config with configFile := v }
      | [] => .error "--config requires a value"
    else if arg = "-o" ∨ arg = "--output" then
      match rest with
      | v :: rest' => parse_arguments rest' { config with backupRoot := v }
      | [] => .error "--output requires a value"
    else if arg = "-m" ∨ arg = "--max" then
      match rest with
      | v :: rest' =>
        match stoul v with
        | some n => parse_arguments rest' { config with maxBackups := n }
        | none => .error "invalid unsigned number"
      | [] => .error "--max requires a value"
    else if arg = "-i" ∨ arg = "--interval" then
      match rest with
      | v :: rest' =>
        match stoul v with
        | some n => parse_arguments rest' { config with intervalMinutes := n }
        | none => .error "invalid unsigned number"
      | [] => .error "--interval requires a value"
    else if arg = "-d" ∨ arg = "--daemon" then
      parse_arguments rest { config with daemon := true }
    else if arg = "-n" ∨ arg = "--now" then
      parse_arguments rest { config with instant := true }
    else if arg = "-v" ∨ arg = "--verbose" then
      parse_arguments rest { config with verbose := true }
    else if arg = "-l" ∨ arg = "--list" then
      parse_arguments rest { config with listBackups := true }
    else if arg = "-r" ∨ arg = "--restore" then
      match rest with
      | v :: rest' => parse_arguments rest' { config with restoreBackup := some v }
      | [] => .error "--restore requires a backup name"
    else if arg = "--restore-to" then
      match rest with
      | _ :: rest' => parse_arguments rest' config
      | [] => .error "--restore-to requires a path"
    else if arg = "--delete" then
      match rest with
      | v :: rest' => parse_arguments rest' { config with deleteBackup := some v }
      | [] => .error "--delete requires a backup name"
    else .error ("Unknown argument: " ++ arg)

/-! ## Daemon scheduling loop (src/main.cpp, `main`, lines 471-499) -/

/-- The observable outcome of one body of the `while (true)` daemon loop:
record `startTime`, run `perform_backup` (whose success only selects the
log message, line 480-486), compute `nextBackup = startTime + interval`
(line 489) and `sleep_until(nextBackup)` iff it is still in the future
(lines 492-498).  Time is in abstract steady-clock units; `dur` is how
long the cycle body took, so `now = start + dur` at the scheduling point.
No branch of the body leaves the loop. -/
structure CycleOutcome where
  nextStart : Nat
  failureLogged : Bool
  loopContinues : Bool
deriving DecidableEq, Repr

def daemon_cycle (start dur interval : Nat) (success : Bool) : CycleOutcome :=
  let now := start + dur
  let nextBackup := start + interval
  { nextStart := if nextBackup > now then nextBackup else now
    failureLogged := !success
    loopContinues := true }

/-- The cycle-start instants of the daemon trace, given the durations and
success/failure of each cycle's backup step. -/
def daemon_starts (t0 interval : Nat) (dur : Nat → Nat) (success : Nat → Bool) :
    Nat → Nat
  | 0 => t0
  | n + 1 =>
    (daemon_cycle (daemon_starts t0 interval dur success n) (dur n) interval
      (success n)).nextStart

/-! ## Restore and delete (src/main.cpp, `restore_backup` lines 113-144,
`delete_backup` lines 147-164, `main` lines 431-453)

These two operations act on whole path subtrees, so they are modelled at
path granularity: a filesystem is the set of its paths, a path a list of
name components (absolute, `..`/`.` resolved by the OS at lookup). -/

/-- OS-level resolution of `..`, `.` and empty components in a path. -/
def resolveStep (acc : List String) (comp : String) : List String :=
  if comp = ".." then acc.dropLast
  else if comp = "." ∨ comp = "" then acc
  else acc ++ [comp]

def resolvePath (comps : List String) : List String :=
  comps.foldl resolveStep []

/-- Split a path string at directory separators, as `fs::path` appending
decomposes its argument. -/
def splitPath (s : String) : List String :=
  (s.data.splitOn '/').map (fun cs => (⟨cs⟩ : String))

abbrev Fs := List (List String)

def pathExists (p : List String) (fs : Fs) : Bool :=
  fs.any (fun q => p.isPrefixOf q)

/-- `fs::remove_all(p)`: delete `p` and everything below it. -/
def removeSubtree (p : List String) (fs : Fs) : Fs :=
  fs.filter (fun q => !p.isPrefixOf q)

/-- `fs::copy(src, dst, recursive)`: every path in the `src` subtree
reappears relocated under `dst`. -/
def copyTree (src dst : List String) (fs : Fs) : Fs :=
  fs ++ fs.filterMap (fun q =>
    if src.isPrefixOf q then some (dst ++ q.drop src.length) else none)

/-- `restore_backup` (lines 113-144): `backupPath = backupRoot /
backupName`; if it does not exist, report and return `false` touching
nothing; otherwise create the target's missing parent directories,
destructively remove an existing target, and recursively copy the
snapshot to the target (success path of the surrounding try/catch). -/
def restore_backup (backupName : String) (backupRoot : List String)
    (restorePath : String) (fs : Fs) : Bool × Fs :=
  let backupPath := resolvePath (backupRoot ++ splitPath backupName)
  if pathExists backupPath fs then
    let targetPath := resolvePath (splitPath restorePath)
    let fs1 := if targetPath.length ≥ 2 then fs ++ [targetPath.dropLast] else fs
    let fs2 := if pathExists targetPath fs1 then removeSubtree targetPath fs1 else fs1
    (true, copyTree backupPath targetPath fs2)
  else (false, fs)

/-- `delete_backup` (lines 147-164): existence check on
`backupRoot / backupName`, then `fs::remove_all` of that subtree. -/
def delete_backup (backupName : String) (backupRoot : List String)
    (fs : Fs) : Bool × Fs :=
  let backupPath := resolvePath (backupRoot ++ splitPath backupName)
  if pathExists backupPath fs then (true, removeSubtree backupPath fs)
  else (false, fs)

/-- The `--restore` branch of `main` (lines 431-448): `--restore-to` is
required (else error, exit 1); then exit 0 iff `restore_backup`
succeeded. -/
def main_restore (backupName : String) (restoreTo : Option String)
    (backupRoot : List String) (fs : Fs) : Nat × Fs :=
  match restoreTo with
  | none => (1, fs)
  | some t =>
    let r := restore_backup backupName backupRoot t fs
    (if r.1 then 0 else 1, r.2)

/-- The `--delete` branch of `main` (lines 451-453). -/
def main_delete (backupName : String) (backupRoot : List String)
    (fs : Fs) : Nat × Fs :=
  let r := delete_backup backupName backupRoot fs
  (if r.1 then 0 else 1, r.2)

/-! ## Lemmas about the retention loop -/

theorem cleanupLoop_length {m : Nat} {bs rem : List DirEntry} {ev : List String}
    (h : cleanupLoop m bs = some (rem, ev)) : rem.length < m := by
  induction bs generalizing rem ev with
  | nil =>
    rw [cleanupLoop] at h
    by_cases hm : m = 0
    · rw [if_pos hm] at h; exact absurd h (by simp)
    · rw [if_neg hm] at h
      obtain ⟨h1, h2⟩ := Prod.mk.injEq .. ▸ Option.some.inj h
      subst h1; simpa using Nat.pos_of_ne_zero hm
  | cons e rest ih =>
    rw [cleanupLoop] at h
    by_cases hc : (e :: rest).length ≥ m
    · rw [if_pos hc] at h
      cases hcl : cleanupLoop m rest with
      | none => rw [hcl] at h; exact absurd h (by simp)
      | some p =>
        obtain ⟨r, e'⟩ := p
        rw [hcl] at h
        obtain ⟨h1, h2⟩ := Prod.mk.injEq .. ▸ Option.some.inj h
        subst h1
        exact ih hcl
    · rw [if_neg hc] at h
      obtain ⟨h1, h2⟩ := Prod.mk.injEq .. ▸ Option.some.inj h
      subst h1
      omega

theorem cleanupLoop_exists (m : Nat) (hm : 1 ≤ m) (bs : List DirEntry) :
    ∃ rem ev, cleanupLoop m bs = some (rem, ev) := by
  induction bs with
  | nil =>
    refine ⟨[], [], ?_⟩
    rw [cleanupLoop, if_neg (by omega)]
  | cons e rest ih =>
    by_cases hc : (e :: rest).length ≥ m
    · obtain ⟨rem, ev, hcl⟩ := ih
      refine ⟨rem, e.name :: ev, ?_⟩
      rw [cleanupLoop, if_pos hc, hcl]
    · exact ⟨e :: rest, [], by rw [cleanupLoop, if_neg hc]⟩

theorem cleanupLoop_subset {m : Nat} {bs rem : List DirEntry} {ev : List String}
    (h : cleanupLoop m bs = some (rem, ev)) : ∀ x ∈ rem, x ∈ bs := by
  induction bs generalizing rem ev with
  | nil =>
    rw [cleanupLoop] at h
    by_cases hm : m = 0
    · rw [if_pos hm] at h; exact absurd h (by simp)
    · rw [if_neg hm] at h
      obtain ⟨h1, h2⟩ := Prod.mk.injEq .. ▸ Option.some.inj h
      subst h1; intro x hx; exact absurd hx (by simp)
  | cons e rest ih =>
    rw [cleanupLoop] at h
    by_cases hc : (e :: rest).length ≥ m
    · rw [if_pos hc] at h
      cases hcl : cleanupLoop m rest with
      | none => rw [hcl] at h; exact absurd h (by simp)
      | some p =>
        obtain ⟨r, e'⟩ := p
        rw [hcl] at h
        obtain ⟨h1, h2⟩ := Prod.mk.injEq .. ▸ Option.some.inj h
        subst h1
        intro x hx
        exact List.mem_cons_of_mem e (ih hcl x hx)
    · rw [if_neg hc] at h
      obtain ⟨h1, h2⟩ := Prod.mk.injEq .. ▸ Option.some.inj h
      subst h1
      exact fun x hx => hx

theorem cleanupLoop_evicted {m : Nat} {bs rem : List DirEntry} {ev : List String}
    (h : cleanupLoop m bs = some (rem, ev)) : ∀ x ∈ ev, ∃ e ∈ bs, e.name = x := by
  induction bs generalizing rem ev with
  | nil =>
    rw [cleanupLoop] at h
    by_cases hm : m = 0
    · rw [if_pos hm] at h; exact absurd h (by simp)
    · rw [if_neg hm] at h
      obtain ⟨h1, h2⟩ := Prod.mk.injEq .. ▸ Option.some.inj h
      subst h2; intro x hx; exact absurd hx (by simp)
  | cons e rest ih =>
    rw [cleanupLoop] at h
    by_cases hc : (e :: rest).length ≥ m
    · rw [if_pos hc] at h
      cases hcl : cleanupLoop m rest with
      | none => rw [hcl] at h; exact absurd h (by simp)
      | some p =>
        obtain ⟨r, e'⟩ := p
        rw [hcl] at h
        obtain ⟨h1, h2⟩ := Prod.mk.injEq .. ▸ Option.some.inj h
        subst h2
        intro x hx
        rcases List.mem_cons.mp hx with hx | hx
        · exact ⟨e, List.mem_cons_self e rest, hx.symm⟩
        · obtain ⟨f, hf, hfn⟩ := ih hcl x hx
          exact ⟨f, List.mem_cons_of_mem e hf, hfn⟩
    · rw [if_neg hc] at h
      obtain ⟨h1, h2⟩ := Prod.mk.injEq .. ▸ Option.some.inj h
      subst h2; intro x hx; exact absurd hx (by simp)

theorem cleanupLoop_head {m : Nat} {bs rem : List DirEntry} {ev : List String}
    (h : cleanupLoop m bs = some (rem, ev)) (hne : ev ≠ []) :
    ∃ e rest, bs = e :: rest ∧ ev.head? = some e.name := by
  cases bs with
  | nil =>
    rw [cleanupLoop] at h
    by_cases hm : m = 0
    · rw [if_pos hm] at h; exact absurd h (by simp)
    · rw [if_neg hm] at h
      obtain ⟨h1, h2⟩ := Prod.mk.injEq .. ▸ Option.some.inj h
      exact absurd h2.symm hne
  | cons e rest =>
    rw [cleanupLoop] at h
    by_cases hc : (e :: rest).length ≥ m
    · rw [if_pos hc] at h
      cases hcl : cleanupLoop m rest with
      | none => rw [hcl] at h; exact absurd h (by simp)
      | some p =>
        obtain ⟨r, e'⟩ := p
        rw [hcl] at h
        obtain ⟨h1, h2⟩ := Prod.mk.injEq .. ▸ Option.some.inj h
        exact ⟨e, rest, rfl, by rw [← h2]; rfl⟩
    · rw [if_neg hc] at h
      obtain ⟨h1, h2⟩ := Prod.mk.injEq .. ▸ Option.some.inj h
      exact absurd h2.symm hne

/-- Unpack a successful `cleanup_old_backups`: the loop succeeded on the
sorted catalog, the resulting entry set splits into the untouched
non-matching entries plus the kept backups, and the backups of the result
are exactly the kept ones. -/
theorem cleanup_backupEntries {m : Nat} {entries out : List DirEntry} {ev : List String}
    (h : cleanup_old_backups m entries = some (out, ev)) :
    ∃ rem, cleanupLoop m (sortEntriesByName (backupEntries entries)) = some (rem, ev) ∧
      out = entries.filter (fun e => !isBackupEntry e) ++ rem ∧
      backupEntries out = rem := by
  unfold cleanup_old_backups at h
  cases hcl : cleanupLoop m (sortEntriesByName (backupEntries entries)) with
  | none => rw [hcl] at h; exact absurd h (by simp)
  | some p =>
    obtain ⟨rem, ev'⟩ := p
    rw [hcl] at h
    simp only at h
    have h' := Option.some.inj h
    have h1 : entries.filter (fun e => !isBackupEntry e) ++ rem = out :=
      congrArg Prod.fst h'
    have h2 : ev' = ev := congrArg Prod.snd h'
    subst h2
    refine ⟨rem, rfl, h1.symm, ?_⟩
    have hmem : ∀ x ∈ rem, isBackupEntry x = true := by
      intro x hx
      have hx' : x ∈ sortEntriesByName (backupEntries entries) :=
        cleanupLoop_subset hcl x hx
      have hx'' : x ∈ backupEntries entries := by
        simpa [sortEntriesByName] using (List.mem_insertionSort nameLe).mp hx'
      exact (List.mem_filter.mp hx'').2
    subst h1
    unfold backupEntries
    rw [List.filter_append]
    have hleft : (entries.filter (fun e => !isBackupEntry e)).filter isBackupEntry = [] := by
      rw [List.filter_eq_nil_iff]
      intro a ha
      have := (List.mem_filter.mp ha).2
      simp only [Bool.not_eq_true'] at this
      simp [this]
    rw [hleft, List.filter_eq_self.mpr hmem, List.nil_append]

/-- One successful create through the retention-policy-then-create path
leaves at most `m` backups. -/
theorem perform_backup_count {m : Nat} {clock : Option Tm}
    {entries entries' : List DirEntry}
    (h : perform_backup m clock entries = some entries') :
    (backupEntries entries').length ≤ m := by
  unfold perform_backup at h
  cases hco : cleanup_old_backups m entries with
  | none => rw [hco] at h; exact absurd h (by simp)
  | some p =>
    obtain ⟨mid, ev⟩ := p
    rw [hco] at h
    simp only at h
    obtain ⟨rem, hcl, hout, hbe⟩ := cleanup_backupEntries hco
    have hlen : rem.length < m := cleanupLoop_length hcl
    cases hfind : mid.find? (fun e => decide (e.name = make_timestamp_folder_name clock)) with
    | some e =>
      rw [hfind] at h
      simp only at h
      by_cases hd : e.isDir
      · rw [if_pos hd] at h
        obtain rfl := Option.some.inj h
        rw [hbe]
        omega
      · rw [if_neg hd] at h; exact absurd h (by simp)
    | none =>
      rw [hfind] at h
      simp only at h
      obtain rfl := Option.some.inj h
      unfold backupEntries at hbe ⊢
      rw [List.filter_append, hbe]
      have : (List.filter isBackupEntry [⟨make_timestamp_folder_name clock, true⟩]).length ≤ 1 := by
        simp [List.filter]
        split <;> simp
      rw [List.length_append]
      omega

/-- C1: for every retention count `m ≥ 1`, after any (non-empty) sequence
of successful create operations through the
retention-policy-then-create path (`cleanup_old_backups` followed by the
recursive copy in `perform_backup`), the number of snapshot entries under
the backup root is at most `m` — starting from an arbitrary initial
state of the backup root. -/
theorem retention_invariant (m : Nat) (hm : 1 ≤ m) (clocks : List (Option Tm))
    (hne : clocks ≠ []) (entries₀ entries' : List DirEntry)
    (h : applyCreates m clocks entries₀ = some entries') :
    (backupEntries entries').length ≤ m := by
  induction clocks generalizing entries₀ with
  | nil => exact absurd rfl hne
  | cons c cs ih =>
    rw [applyCreates] at h
    cases hp : perform_backup m c entries₀ with
    | none => rw [hp] at h; exact absurd h (by simp)
    | some e1 =>
      rw [hp] at h
      cases cs with
      | nil =>
        simp only [applyCreates] at h
        obtain rfl := Option.some.inj h
        exact perform_backup_count hp
      | cons c' cs' => exact ih (by simp) e1 h

/-- Witness for C1: one successful create with retention count 1 on an
empty backup root leaves exactly one snapshot entry. -/
theorem retention_invariant_witness :
    1 ≤ 1 ∧ ([none] : List (Option Tm)) ≠ [] ∧
    applyCreates 1 [none] [] = some [⟨"Backup_Error", true⟩] ∧
    (backupEntries [⟨"Backup_Error", true⟩]).length ≤ 1 :=
  ⟨le_refl 1, by decide, by decide,
    retention_invariant 1 (le_refl 1) [none] (by decide) [] [⟨"Backup_Error", true⟩]
      (by decide)⟩

/-- C2 (divergence): when the local-time conversion fails, the source
does not fail with a clock error — `make_timestamp_folder_name` returns
the sentinel name `"Backup_Error"` (line 41) and `perform_backup` carries
on and creates the snapshot under that name (lines 218-229), reporting
success. -/
theorem clock_error_sentinel :
    make_timestamp_folder_name none = "Backup_Error" ∧
    perform_backup 10 none [] = some [⟨"Backup_Error", true⟩] := by
  constructor
  · rfl
  · decide

/-- C4 (divergence): `parse_arguments` accepts `--max 0` with no
validation (lines 291-296), and `cleanup_old_backups` invoked with
`maxBackups = 0` runs its `while (backups.size() >= 0)` loop into
`front()` on an empty vector — undefined behavior (`none`), after
deleting every existing backup on the way. -/
theorem max_zero_accepted :
    parse_arguments ["--max", "0"] {} = .ok { maxBackups := 0 } ∧
    cleanupLoop 0 [] = none ∧
    cleanup_old_backups 0 [⟨"Backup_2024-01-01_00-00-00", true⟩] = none ∧
    perform_backup 0 none [] = none :=
  ⟨rfl, by decide, by decide, by decide⟩

/-- C5: retention sorts the catalog oldest-first by name-string
comparison and, while the catalog size is ≥ max, deletes the current
oldest entry: whenever anything is evicted, the first evicted name is a
least catalog name under string comparison; and on the spec's concrete
example with max = 2 the first entry evicted is
`Backup_2024-01-01_00-00-00` (then `Backup_2024-01-02_00-00-00`, leaving
only the newest). -/
theorem eviction_order :
    (∀ (m : Nat) (entries out : List DirEntry) (ev : List String),
      cleanup_old_backups m entries = some (out, ev) → ev ≠ [] →
      ∃ x, ev.head? = some x ∧ (∃ e ∈ backupEntries entries, e.name = x) ∧
        ∀ e ∈ backupEntries entries, x ≤ e.name) ∧
    cleanup_old_backups 2
        [⟨"Backup_2024-01-02_00-00-00", true⟩, ⟨"Backup_2024-01-03_00-00-00", true⟩,
          ⟨"Backup_2024-01-01_00-00-00", true⟩] =
      some ([⟨"Backup_2024-01-03_00-00-00", true⟩],
        ["Backup_2024-01-01_00-00-00", "Backup_2024-01-02_00-00-00"]) := by
  constructor
  · intro m entries out ev h hne
    obtain ⟨rem, hcl, hout, hbe⟩ := cleanup_backupEntries h
    obtain ⟨e0, rest, hsort, hhead⟩ := cleanupLoop_head hcl hne
    refine ⟨e0.name, hhead, ?_, ?_⟩
    · have h0 : e0 ∈ sortEntriesByName (backupEntries entries) := by
        rw [hsort]; exact List.mem_cons_self _ _
      have he0 : e0 ∈ backupEntries entries :=
        (List.mem_insertionSort nameLe).mp h0
      exact ⟨e0, he0, rfl⟩
    · intro e he
      have hsorted : List.Sorted nameLe (sortEntriesByName (backupEntries entries)) :=
        List.sorted_insertionSort nameLe (backupEntries entries)
      rw [hsort] at hsorted
      have hmem : e ∈ e0 :: rest := by
        rw [← hsort]
        exact (List.mem_insertionSort nameLe).mpr he
      have hle : nameLe e0 e := by
        rcases List.mem_cons.mp hmem with rfl | hmem'
        · exact le_refl e.name.data
        · exact (List.pairwise_cons.mp hsorted).1 e hmem'
      exact String.le_iff_toList_le.mpr hle
  · decide

/-- Witness for C5: the general least-name property applied to the
concrete three-snapshot example with max = 2. -/
theorem eviction_order_witness :
    ∃ x, (["Backup_2024-01-01_00-00-00", "Backup_2024-01-02_00-00-00"] :
        List String).head? = some x ∧
      (∃ e ∈ backupEntries
          [⟨"Backup_2024-01-02_00-00-00", true⟩, ⟨"Backup_2024-01-03_00-00-00", true⟩,
            ⟨"Backup_2024-01-01_00-00-00", true⟩], e.name = x) ∧
      ∀ e ∈ backupEntries
          [⟨"Backup_2024-01-02_00-00-00", true⟩, ⟨"Backup_2024-01-03_00-00-00", true⟩,
            ⟨"Backup_2024-01-01_00-00-00", true⟩], x ≤ e.name :=
  eviction_order.1 2
    [⟨"Backup_2024-01-02_00-00-00", true⟩, ⟨"Backup_2024-01-03_00-00-00", true⟩,
      ⟨"Backup_2024-01-01_00-00-00", true⟩]
    [⟨"Backup_2024-01-03_00-00-00", true⟩]
    ["Backup_2024-01-01_00-00-00", "Backup_2024-01-02_00-00-00"]
    (by decide) (by decide)

/-- C6: in daemon mode, for every cycle — whatever the success of the
backup step — the next cycle starts at
`max (cycle_start + interval) (cycle_start + cycle_duration)`: at
`cycle_start + interval` when that instant is still in the future
(suspend until it), immediately otherwise (no catch-up cycles); the loop
always continues, a failed create only selects the failure log message,
and the whole schedule is independent of which cycles failed. -/
theorem daemon_schedule (t0 interval : Nat) (dur : Nat → Nat)
    (success success' : Nat → Bool) (n : Nat) :
    daemon_starts t0 interval dur success (n + 1) =
      max (daemon_starts t0 interval dur success n + interval)
        (daemon_starts t0 interval dur success n + dur n) ∧
    (daemon_cycle (daemon_starts t0 interval dur success n) (dur n) interval
      (success n)).loopContinues = true ∧
    (daemon_cycle (daemon_starts t0 interval dur success n) (dur n) interval
      false).failureLogged = true ∧
    daemon_starts t0 interval dur success n = daemon_starts t0 interval dur success' n := by
  refine ⟨?_, rfl, rfl, ?_⟩
  · show (daemon_cycle _ _ _ _).nextStart = _
    unfold daemon_cycle
    simp only
    split <;> omega
  · induction n with
    | zero => rfl
    | succ k ih => simp only [daemon_starts, daemon_cycle, ih]

/-- C7: restoring a snapshot name whose path under the backup root does
not exist fails with exit code 1 and leaves the filesystem — in
particular the target path, its parents, and any existing target —
completely untouched (`restore_backup` returns before any mutation,
lines 117-120). -/
theorem restore_missing_untouched (backupName : String) (backupRoot : List String)
    (restoreTo : String) (fs : Fs)
    (h : pathExists (resolvePath (backupRoot ++ splitPath backupName)) fs = false) :
    main_restore backupName (some restoreTo) backupRoot fs = (1, fs) := by
  unfold main_restore restore_backup
  simp [h]

/-- Witness for C7: restoring the absent `Backup_nope` from root
`CopiedFiles` fails with exit 1 and an unchanged filesystem. -/
theorem restore_missing_untouched_witness :
    pathExists (resolvePath (["CopiedFiles"] ++ splitPath "Backup_nope"))
      [["CopiedFiles"], ["restored", "old.txt"]] = false ∧
    main_restore "Backup_nope" (some "restored") ["CopiedFiles"]
      [["CopiedFiles"], ["restored", "old.txt"]] =
      (1, [["CopiedFiles"], ["restored", "old.txt"]]) :=
  ⟨by decide,
    restore_missing_untouched "Backup_nope" ["CopiedFiles"] "restored"
      [["CopiedFiles"], ["restored", "old.txt"]] (by decide)⟩

/-- C8: listing with a missing backup root succeeds (exit 0) with the
"no backup directory" message and an empty catalog, and listing an
existing root with no matching snapshot entries succeeds (exit 0) with
the "no backups found" message; neither is an error. -/
theorem list_missing_or_empty_root (entries : List DirEntry)
    (h : backupEntries entries = []) :
    main_list none = (0, ⟨ListMessage.noBackupDirectory, []⟩) ∧
    main_list (some entries) = (0, ⟨ListMessage.noBackupsFound, []⟩) := by
  constructor
  · rfl
  · unfold main_list list_backups
    simp [h]

/-- Witness for C8: a root holding only a stray file lists as "no
backups found" with exit code 0. -/
theorem list_missing_or_empty_root_witness :
    backupEntries [⟨"notes.txt", false⟩] = [] ∧
    main_list none = (0, ⟨ListMessage.noBackupDirectory, []⟩) ∧
    main_list (some [⟨"notes.txt", false⟩]) = (0, ⟨ListMessage.noBackupsFound, []⟩) :=
  ⟨by decide, list_missing_or_empty_root [⟨"notes.txt", false⟩] (by decide)⟩

/-- C9 counterexample: the catalog does not contain *exactly* the
entries whose name starts with `Backup_` — a non-directory entry whose
name does start with `Backup_` is excluded by the `is_directory()` half
of the filter (lines 88-89 and 172-173). -/
theorem catalog_prefix_counterexample :
    "Backup_".data.isPrefixOf "Backup_stray.txt".data = true ∧
    (⟨"Backup_stray.txt", false⟩ : DirEntry) ∈
      ([⟨"Backup_stray.txt", false⟩] : List DirEntry) ∧
    backupEntries [⟨"Backup_stray.txt", false⟩] = [] ∧
    (list_backups (some [⟨"Backup_stray.txt", false⟩])).message =
      ListMessage.noBackupsFound := by
  decide

/-- C9 (amended): the catalog seen by both listing and retention contains
exactly those entries that are directories *and* whose name starts with
`Backup_`; all other entries are silently ignored — never reported by
`list_backups` and never deleted by `cleanup_old_backups` (every evicted
name belongs to a catalog entry, and every non-matching entry survives
cleanup). -/
theorem catalog_filter_amended :
    (∀ (entries : List DirEntry) (e : DirEntry),
      e ∈ backupEntries entries ↔
        e ∈ entries ∧ e.isDir = true ∧ "Backup_".data.isPrefixOf e.name.data = true) ∧
    (∀ entries : List DirEntry, ∀ x ∈ (list_backups (some entries)).listed,
      ∃ e ∈ backupEntries entries, e.name = x) ∧
    (∀ (m : Nat) (entries out : List DirEntry) (ev : List String),
      cleanup_old_backups m entries = some (out, ev) →
      (∀ e ∈ entries, isBackupEntry e = false → e ∈ out) ∧
      (∀ x ∈ ev, ∃ e ∈ backupEntries entries, e.name = x)) := by
  refine ⟨?_, ?_, ?_⟩
  · intro entries e
    simp [backupEntries, List.mem_filter, isBackupEntry, Bool.and_eq_true, and_assoc]
  · intro entries x hx
    unfold list_backups at hx
    simp only at hx
    by_cases hemp : (backupEntries entries).isEmpty
    · rw [if_pos hemp] at hx
      exact absurd hx (by simp)
    · rw [if_neg hemp] at hx
      simp only [List.mem_map] at hx
      obtain ⟨e, he, hname⟩ := hx
      exact ⟨e, (List.mem_insertionSort nameGe).mp he, hname⟩
  · intro m entries out ev h
    obtain ⟨rem, hcl, hout, hbe⟩ := cleanup_backupEntries h
    constructor
    · intro e he hnb
      rw [hout]
      refine List.mem_append_left _ ?_
      exact List.mem_filter.mpr ⟨he, by simp [hnb]⟩
    · intro x hx
      obtain ⟨e, he, hname⟩ := cleanupLoop_evicted hcl x hx
      exact ⟨e, (List.mem_insertionSort nameLe).mp he, hname⟩

/-- Witness for C9's amended statement: cleanup with max 1 on a root
holding a stray file and one backup evicts only the backup (a catalog
entry) and keeps the stray file. -/
theorem catalog_filter_amended_witness :
    cleanup_old_backups 1 [⟨"stray.txt", false⟩, ⟨"Backup_2024-01-01_00-00-00", true⟩] =
      some ([⟨"stray.txt", false⟩], ["Backup_2024-01-01_00-00-00"]) ∧
    ((∀ e ∈ [⟨"stray.txt", false⟩, ⟨"Backup_2024-01-01_00-00-00", true⟩],
        isBackupEntry e = false → e ∈ [(⟨"stray.txt", false⟩ : DirEntry)]) ∧
      (∀ x ∈ ["Backup_2024-01-01_00-00-00"],
        ∃ e ∈ backupEntries [⟨"stray.txt", false⟩, ⟨"Backup_2024-01-01_00-00-00", true⟩],
          e.name = x)) :=
  ⟨by decide,
    catalog_filter_amended.2.2 1
      [⟨"stray.txt", false⟩, ⟨"Backup_2024-01-01_00-00-00", true⟩]
      [⟨"stray.txt", false⟩] ["Backup_2024-01-01_00-00-00"] (by decide)⟩

/-- C10: delete and restore validate nothing about the snapshot name
beyond existence of `<root>/<name>`: whenever that (OS-resolved) path
exists, delete removes the entire subtree and exits 0, and restore
proceeds and exits 0 — no matter whether the name carries the `Backup_`
prefix or walks out of the backup root through `..` components. -/
theorem delete_restore_unvalidated (backupName : String) (backupRoot : List String)
    (restoreTo : String) (fs : Fs)
    (h : pathExists (resolvePath (backupRoot ++ splitPath backupName)) fs = true) :
    main_delete backupName backupRoot fs =
      (0, removeSubtree (resolvePath (backupRoot ++ splitPath backupName)) fs) ∧
    (main_restore backupName (some restoreTo) backupRoot fs).1 = 0 := by
  unfold main_delete delete_backup main_restore restore_backup
  simp [h]

/-- Witness for C10: deleting the name `../victim` — no `Backup_` prefix,
resolving outside the backup root — removes the `victim` subtree next to
the root and reports success. -/
theorem delete_restore_unvalidated_witness :
    pathExists (resolvePath (["CopiedFiles"] ++ splitPath "../victim"))
      [["CopiedFiles"], ["victim", "data.txt"]] = true ∧
    main_delete "../victim" ["CopiedFiles"] [["CopiedFiles"], ["victim", "data.txt"]] =
      (0, [["CopiedFiles"]]) :=
  ⟨by decide,
    ((delete_restore_unvalidated "../victim" ["CopiedFiles"] "x"
        [["CopiedFiles"], ["victim", "data.txt"]] (by decide)).1).trans (by decide)⟩

end FlameUp
